import Mathlib

/-!
# kms-client: the seal/unseal test server (`pkg/server/server.go`)

A shallow embedding of `Server.Seal`, `Server.Unseal` and `getRandomAESKey`.

* Byte slices are lists of bytes.
* The two effects of the handlers are made explicit in a `World`: the unread
  bytes of `rand.Reader`, and the log of node identifiers handed to the key
  handler.  Every handler returns its Go result pair `(*kms.Response, error)`
  as an `Except` together with the world it leaves behind, so what a call has
  consumed is visible also when it returns an error.
* `crypto/aes` and `crypto/cipher` are Go's standard library, not code of this
  repository.  They enter as a parameter `AESGCM` that carries the documented
  contract of AES-GCM (output length, open-after-seal, plaintext length); the
  key-size check of `aes.NewCipher` and the GCM constants are written out.
* `time.Sleep` has no functional effect and is left out.
-/

namespace KMS

/-! ## Data model -/

abbrev Byte := Fin 256

abbrev Bytes := List Byte

/-- The gRPC status codes (`google.golang.org/grpc/codes`) that matter here. -/
inductive Code where
  | OK
  | InvalidArgument
  | NotFound
  | Internal
  deriving DecidableEq, Repr

/-- Go `error` values that can flow through the handlers. -/
inductive Error where
  /-- The value `status.Error(c, msg)`. -/
  | status (c : Code) (msg : String)
  /-- The value `aes.KeySizeError(n)`. -/
  | KeySizeError (n : Nat)
  /-- The value `io.EOF`: nothing could be read. -/
  | EOF
  /-- The value `io.ErrUnexpectedEOF`: fewer bytes than asked for. -/
  | ErrUnexpectedEOF
  /-- The error of `AEAD.Open`, "cipher: message authentication failed". -/
  | errOpen
  /-- The error of `cipher.NewGCM` for a block cipher whose block is not 128 bits. -/
  | errBlockSize
  /-- Any other error value, such as the key handler's `fmt.Errorf(...)`. -/
  | errorf (msg : String)
  deriving DecidableEq, Repr

/-- The message `kms.Request`. -/
structure Request where
  NodeUuid : String
  Data : Bytes
  deriving DecidableEq, Repr

/-- The message `kms.Response`. -/
structure Response where
  Data : Bytes
  deriving DecidableEq, Repr

/-- The environment of a call: what `rand.Reader` will still deliver, and the
node identifiers the key handler has been called with (oldest first). -/
structure World where
  rand : Bytes
  keyCalls : List String
  deriving DecidableEq, Repr

/-- The struct `Server`: the injected key handler `getKey`. -/
structure Server where
  getKey : String → Except Error Bytes

/-- The constructor `NewServer`. -/
def NewServer (keyHandler : String → Except Error Bytes) : Server :=
  { getKey := keyHandler }

/-! ## Constants -/

/-- Modelled from the spec: the constant `constants.PassphraseSize` of
`pkg/constants`, which is not among the sources; the spec fixes the passphrase
at 32 bytes. -/
def constants.PassphraseSize : Nat := 32

/-- The constant `aes.BlockSize`. -/
def aes.BlockSize : Nat := 16

/-- The constant `gcmStandardNonceSize` of `crypto/cipher`, returned by `NonceSize()`. -/
def gcmStandardNonceSize : Nat := 12

/-- The constant `gcmTagSize` of `crypto/cipher`, returned by `Overhead()`. -/
def gcmTagSize : Nat := 16

/-! ## The standard library the handlers call -/

/-- The key lengths `aes.NewCipher` accepts: AES-128, AES-192, AES-256. -/
def aes.validKeySize (n : Nat) : Prop := n = 16 ∨ n = 24 ∨ n = 32

instance (n : Nat) : Decidable (aes.validKeySize n) := by
  unfold aes.validKeySize; infer_instance

/-- AES-GCM as a parameter: the two byte-level functions behind `AEAD.Seal`
and `AEAD.Open` (with `dst = nil` and no additional data), and the contract
`crypto/cipher` documents for them, for the keys `aes.NewCipher` accepts and
nonces of the standard size. -/
structure AESGCM where
  /-- Ciphertext followed by tag, from key, nonce and plaintext. -/
  sealBytes : Bytes → Bytes → Bytes → Bytes
  /-- The plaintext from key, nonce and sealed bytes, or `none` when authentication fails. -/
  openBytes : Bytes → Bytes → Bytes → Option Bytes
  seal_length : ∀ key nonce p, aes.validKeySize key.length →
    nonce.length = gcmStandardNonceSize →
    (sealBytes key nonce p).length = p.length + gcmTagSize
  open_seal : ∀ key nonce p, aes.validKeySize key.length →
    nonce.length = gcmStandardNonceSize →
    openBytes key nonce (sealBytes key nonce p) = some p
  open_length : ∀ key nonce c p, aes.validKeySize key.length →
    nonce.length = gcmStandardNonceSize →
    openBytes key nonce c = some p → p.length + gcmTagSize = c.length

/-- The value `cipher.Block` made by `aes.NewCipher`: the key it was made from. -/
structure Block where
  key : Bytes
  BlockSize : Nat
  deriving DecidableEq, Repr

/-- The function `aes.NewCipher`: any key length other than 16, 24 or 32 is a
`KeySizeError`. -/
def aes.NewCipher (key : Bytes) : Except Error Block :=
  if aes.validKeySize key.length then
    .ok { key := key, BlockSize := aes.BlockSize }
  else
    .error (.KeySizeError key.length)

/-- The value `cipher.AEAD` made by `cipher.NewGCM`. -/
structure AEAD where
  lib : AESGCM
  key : Bytes

/-- The function `cipher.NewGCM`: it refuses only a block size other than 16. -/
def cipher.NewGCM (G : AESGCM) (block : Block) : Except Error AEAD :=
  if block.BlockSize = 16 then
    .ok { lib := G, key := block.key }
  else
    .error .errBlockSize

/-- The method `NonceSize()` of a standard GCM. -/
def AEAD.NonceSize (_ : AEAD) : Nat := gcmStandardNonceSize

/-- The method `Overhead()` of a standard GCM. -/
def AEAD.Overhead (_ : AEAD) : Nat := gcmTagSize

/-- The call `aesgcm.Seal(nil, nonce, plaintext, nil)`. -/
def AEAD.Seal (a : AEAD) (nonce plaintext : Bytes) : Bytes :=
  a.lib.sealBytes a.key nonce plaintext

/-- The call `aesgcm.Open(nil, nonce, ciphertext, nil)`. -/
def AEAD.Open (a : AEAD) (nonce ciphertext : Bytes) : Except Error Bytes :=
  match a.lib.openBytes a.key nonce ciphertext with
  | some p => .ok p
  | none => .error .errOpen

/-- The call `io.ReadFull(rand.Reader, buf)` with `len(buf) = n`, which is also
what `rand.Read(buf)` does: exactly `n` bytes, or an error when the source
cannot deliver them. -/
def ReadFull (n : Nat) (w : World) : Except Error Bytes × World :=
  if n ≤ w.rand.length then
    (.ok (w.rand.take n), { w with rand := w.rand.drop n })
  else if w.rand.length = 0 then
    (.error .EOF, w)
  else
    (.error .ErrUnexpectedEOF, { w with rand := [] })

/-- The call `srv.getKey(nodeUUID)`, recorded in the world. -/
def Server.callGetKey (srv : Server) (nodeUUID : String) (w : World) :
    Except Error Bytes × World :=
  (srv.getKey nodeUUID, { w with keyCalls := w.keyCalls ++ [nodeUUID] })

/-! ## `server.go` -/

/-- The function `getRandomAESKey`: a random AES-256 key. -/
def getRandomAESKey (w : World) : Except Error Bytes × World :=
  match ReadFull 32 w with
  | (.error err, w1) => (.error err, w1)
  | (.ok key, w1) => (.ok key, w1)

/-- Lines 41-47 and 79-85, the same in both handlers: ask the key handler, and
on any error of it draw a random key instead. -/
def resolveKey (srv : Server) (req : Request) (w : World) : Except Error Bytes × World :=
  match srv.callGetKey req.NodeUuid w with
  | (.ok key, w1) => (.ok key, w1)
  | (.error _, w1) => getRandomAESKey w1

/-- The method `Server.Seal`. -/
def Seal (G : AESGCM) (srv : Server) (req : Request) (w : World) :
    Except Error Response × World :=
  match resolveKey srv req w with
  | (.error err, w1) => (.error err, w1)
  | (.ok key, w1) =>
    match aes.NewCipher key with
    | .error err => (.error err, w1)
    | .ok block =>
      match cipher.NewGCM G block with
      | .error err => (.error err, w1)
      | .ok aesgcm =>
        match ReadFull aesgcm.NonceSize w1 with
        | (.error err, w2) => (.error err, w2)
        | (.ok nonce, w2) =>
          if req.Data.length ≠ constants.PassphraseSize then
            (.error (.status .InvalidArgument "incorrect data length"), w2)
          else
            let encrypted := aesgcm.Seal nonce req.Data
            (.ok { Data := nonce ++ encrypted }, w2)

/-- The method `Server.Unseal`. -/
def Unseal (G : AESGCM) (srv : Server) (req : Request) (w : World) :
    Except Error Response × World :=
  match resolveKey srv req w with
  | (.error err, w1) => (.error err, w1)
  | (.ok key, w1) =>
    match aes.NewCipher key with
    | .error err => (.error err, w1)
    | .ok block =>
      match cipher.NewGCM G block with
      | .error err => (.error err, w1)
      | .ok aesgcm =>
        let nonceSize := aesgcm.NonceSize
        if req.Data.length ≠ aes.BlockSize + constants.PassphraseSize + nonceSize then
          (.error (.status .InvalidArgument "incorrect data length"), w1)
        else
          match aesgcm.Open (req.Data.take nonceSize) (req.Data.drop nonceSize) with
          | .error _ =>
            match ReadFull constants.PassphraseSize w1 with
            | (.error err, w2) => (.error err, w2)
            | (.ok data, w2) => (.ok { Data := data }, w2)
          | .ok decrypted => (.ok { Data := decrypted }, w1)

/-- Whether a handler's result is an error with status code `InvalidArgument`. -/
def isInvalidArgument (r : Except Error Response) : Prop :=
  ∃ msg, r = .error (.status .InvalidArgument msg)

/-- How many bytes lines 41-47 (and 79-85) read from the random source for the
node: the 32 of `getRandomAESKey` when the key handler fails, none otherwise. -/
def fallbackKeyBytes (srv : Server) (nodeUUID : String) : Nat :=
  match srv.getKey nodeUUID with
  | .ok _ => 0
  | .error _ => 32

/-! ## A small executable AEAD with the shape of GCM

It instantiates `AESGCM` so that the handlers can be run on concrete requests. -/

/-- The pad byte of the small AEAD, from key and nonce. -/
def padByte (key nonce : Bytes) : Byte := key.sum + nonce.sum

/-- The 16-byte tag of the small AEAD over a ciphertext. -/
def padTag (key nonce ct : Bytes) : Bytes :=
  List.replicate gcmTagSize (padByte key nonce + ct.sum)

/-- Sealing: every byte shifted by the pad, followed by the tag. -/
def padSeal (key nonce p : Bytes) : Bytes :=
  let ct := p.map (fun b => b + padByte key nonce)
  ct ++ padTag key nonce ct

/-- Opening: split off the last 16 bytes, compare them with the expected tag,
and shift the rest back. -/
def padOpen (key nonce c : Bytes) : Option Bytes :=
  if c.length < gcmTagSize then none
  else
    let ct := c.take (c.length - gcmTagSize)
    let tag := c.drop (c.length - gcmTagSize)
    if tag = padTag key nonce ct then
      some (ct.map (fun b => b - padByte key nonce))
    else none

/-- The small AEAD as an instance of the AES-GCM contract. -/
def padGCM : AESGCM where
  sealBytes := padSeal
  openBytes := padOpen
  seal_length := by
    intro key nonce p _ _
    simp [padSeal, padTag]
  open_seal := by
    intro key nonce p _ _
    have hlen : (padSeal key nonce p).length = p.length + gcmTagSize := by
      simp [padSeal, padTag]
    unfold padOpen
    rw [if_neg (by omega)]
    have htake : (padSeal key nonce p).take ((padSeal key nonce p).length - gcmTagSize)
        = p.map (fun b => b + padByte key nonce) := by
      rw [hlen]
      simp [padSeal]
    have hdrop : (padSeal key nonce p).drop ((padSeal key nonce p).length - gcmTagSize)
        = padTag key nonce (p.map (fun b => b + padByte key nonce)) := by
      rw [hlen]
      simp [padSeal]
    simp only [htake, hdrop, if_true, List.map_map]
    congr 1
    conv_rhs => rw [← List.map_id p]
    apply List.map_congr_left
    intro b _
    simp
  open_length := by
    intro key nonce c p _ _ h
    unfold padOpen at h
    by_cases hc : c.length < gcmTagSize
    · rw [if_pos hc] at h
      cases h
    · rw [if_neg hc] at h
      by_cases ht : c.drop (c.length - gcmTagSize)
          = padTag key nonce (c.take (c.length - gcmTagSize))
      · simp only [ht, if_true, Option.some.injEq] at h
        subst h
        simp
        omega
      · simp only [ht, if_false] at h
        cases h

/-! ## Concrete servers and worlds

The key handler of `TestSealUnseal` (one known node, `"abcd"`), a handler that
serves a key of a length AES refuses, and a world to run them in. -/

/-- A 32-byte key. -/
def demoKey : Bytes := List.replicate 32 7

/-- The server of the tests: node `"abcd"` has `demoKey`, any other node is unknown. -/
def demoServer : Server :=
  NewServer (fun nodeUUID =>
    if nodeUUID = "abcd" then .ok demoKey else .error (.errorf "unknown node"))

/-- A server whose handler serves the same 5-byte key for every node, as the
reference `main` does with a key file of that size. -/
def shortKeyServer : Server :=
  NewServer (fun _ => .ok [1, 2, 3, 4, 5])

/-- A world whose random source still holds 80 bytes, `0, 1, 2, ...`. -/
def demoWorld : World :=
  { rand := (List.range 80).map (fun i => Fin.ofNat i), keyCalls := [] }

/-- A 32-byte passphrase. -/
def demoPassphrase : Bytes := (List.range 32).map (fun i => Fin.ofNat (100 + i))

/-! ## Stepping through the handlers -/

theorem ReadFull_of_le {n : Nat} {w : World} (h : n ≤ w.rand.length) :
    ReadFull n w = (.ok (w.rand.take n), { w with rand := w.rand.drop n }) := by
  simp [ReadFull, h]

theorem ReadFull_ok_inv {n : Nat} {w w1 : World} {bs : Bytes}
    (h : ReadFull n w = (.ok bs, w1)) :
    n ≤ w.rand.length ∧ bs = w.rand.take n ∧ w1 = { w with rand := w.rand.drop n } := by
  unfold ReadFull at h
  by_cases hn : n ≤ w.rand.length
  · rw [if_pos hn] at h
    simp only [Prod.mk.injEq, Except.ok.injEq] at h
    exact ⟨hn, h.1.symm, h.2.symm⟩
  · rw [if_neg hn] at h
    by_cases h0 : w.rand.length = 0
    · rw [if_pos h0] at h
      simp at h
    · rw [if_neg h0] at h
      simp at h

theorem ReadFull_error_not_status {n : Nat} {w w1 : World} {err : Error}
    (h : ReadFull n w = (.error err, w1)) : err = .EOF ∨ err = .ErrUnexpectedEOF := by
  unfold ReadFull at h
  by_cases hn : n ≤ w.rand.length
  · rw [if_pos hn] at h
    simp at h
  · rw [if_neg hn] at h
    by_cases h0 : w.rand.length = 0
    · rw [if_pos h0] at h
      simp only [Prod.mk.injEq, Except.error.injEq] at h
      exact Or.inl h.1.symm
    · rw [if_neg h0] at h
      simp only [Prod.mk.injEq, Except.error.injEq] at h
      exact Or.inr h.1.symm

theorem ReadFull_keyCalls (n : Nat) (w : World) : (ReadFull n w).2.keyCalls = w.keyCalls := by
  unfold ReadFull
  split
  · rfl
  · split <;> rfl

theorem getRandomAESKey_eq (w : World) : getRandomAESKey w = ReadFull 32 w := by
  unfold getRandomAESKey
  split <;> simp_all

theorem resolveKey_of_ok {srv : Server} {r : Request} {key : Bytes} (w : World)
    (h : srv.getKey r.NodeUuid = .ok key) :
    resolveKey srv r w = (.ok key, { w with keyCalls := w.keyCalls ++ [r.NodeUuid] }) := by
  simp [resolveKey, Server.callGetKey, h]

theorem resolveKey_of_error {srv : Server} {r : Request} {e : Error} (w : World)
    (h : srv.getKey r.NodeUuid = .error e) :
    resolveKey srv r w
      = ReadFull 32 { w with keyCalls := w.keyCalls ++ [r.NodeUuid] } := by
  simp [resolveKey, Server.callGetKey, h, getRandomAESKey_eq]

theorem resolveKey_keyCalls (srv : Server) (req : Request) (w : World) :
    (resolveKey srv req w).2.keyCalls = w.keyCalls ++ [req.NodeUuid] := by
  cases h : srv.getKey req.NodeUuid with
  | ok key => rw [resolveKey_of_ok w h]
  | error e => rw [resolveKey_of_error w h, ReadFull_keyCalls]

theorem NewCipher_of_valid {key : Bytes} (h : aes.validKeySize key.length) :
    aes.NewCipher key = .ok { key := key, BlockSize := aes.BlockSize } := by
  simp [aes.NewCipher, h]

theorem NewCipher_of_invalid {key : Bytes} (h : ¬ aes.validKeySize key.length) :
    aes.NewCipher key = .error (.KeySizeError key.length) := by
  simp [aes.NewCipher, h]

theorem NewGCM_of_aes (G : AESGCM) (key : Bytes) :
    cipher.NewGCM G { key := key, BlockSize := aes.BlockSize } = .ok { lib := G, key := key } := by
  simp [cipher.NewGCM, aes.BlockSize]

/-- The method `Server.Seal` once a key the cipher accepts is in hand. -/
theorem Seal_of_key {G : AESGCM} {srv : Server} {req : Request} {w w1 : World} {key : Bytes}
    (hres : resolveKey srv req w = (.ok key, w1)) (hv : aes.validKeySize key.length) :
    Seal G srv req w =
      match ReadFull gcmStandardNonceSize w1 with
      | (.error err, w2) => (.error err, w2)
      | (.ok nonce, w2) =>
        if req.Data.length ≠ constants.PassphraseSize then
          (.error (.status .InvalidArgument "incorrect data length"), w2)
        else
          (.ok { Data := nonce ++ G.sealBytes key nonce req.Data }, w2) := by
  simp only [Seal, hres, NewCipher_of_valid hv, NewGCM_of_aes, AEAD.NonceSize, AEAD.Seal]

/-- The method `Server.Unseal` once a key the cipher accepts is in hand. -/
theorem Unseal_of_key {G : AESGCM} {srv : Server} {req : Request} {w w1 : World} {key : Bytes}
    (hres : resolveKey srv req w = (.ok key, w1)) (hv : aes.validKeySize key.length) :
    Unseal G srv req w =
      if req.Data.length ≠ aes.BlockSize + constants.PassphraseSize + gcmStandardNonceSize then
        (.error (.status .InvalidArgument "incorrect data length"), w1)
      else
        match G.openBytes key (req.Data.take gcmStandardNonceSize)
            (req.Data.drop gcmStandardNonceSize) with
        | none =>
          match ReadFull constants.PassphraseSize w1 with
          | (.error err, w2) => (.error err, w2)
          | (.ok data, w2) => (.ok { Data := data }, w2)
        | some decrypted => (.ok { Data := decrypted }, w1) := by
  simp only [Unseal, hres, NewCipher_of_valid hv, NewGCM_of_aes, AEAD.NonceSize, AEAD.Open]
  cases G.openBytes key (req.Data.take gcmStandardNonceSize)
    (req.Data.drop gcmStandardNonceSize) <;> rfl

/-- Both handlers when the key in hand is one `aes.NewCipher` refuses. -/
theorem handlers_of_bad_key {G : AESGCM} {srv : Server} {req : Request} {w w1 : World}
    {key : Bytes} (hres : resolveKey srv req w = (.ok key, w1))
    (hv : ¬ aes.validKeySize key.length) :
    Seal G srv req w = (.error (.KeySizeError key.length), w1) ∧
    Unseal G srv req w = (.error (.KeySizeError key.length), w1) := by
  simp only [Seal, Unseal, hres, NewCipher_of_invalid hv, and_self]

/-- Both handlers when no key could be had at all. -/
theorem handlers_of_no_key {G : AESGCM} {srv : Server} {req : Request} {w w1 : World}
    {err : Error} (hres : resolveKey srv req w = (.error err, w1)) :
    Seal G srv req w = (.error err, w1) ∧ Unseal G srv req w = (.error err, w1) := by
  simp only [Seal, Unseal, hres, and_self]

/-- A key drawn by `resolveKey` as the fallback is an AES-256 key. -/
theorem resolveKey_fallback_valid {srv : Server} {req : Request} {w w1 : World} {key : Bytes}
    {e : Error} (h : srv.getKey req.NodeUuid = .error e)
    (hres : resolveKey srv req w = (.ok key, w1)) : key.length = 32 := by
  rw [resolveKey_of_error w h] at hres
  obtain ⟨hn, hk, _⟩ := ReadFull_ok_inv hres
  subst hk
  simp only [List.length_take]
  exact Nat.min_eq_left hn

/-- The only errors `resolveKey` returns are those of the random source. -/
theorem resolveKey_error_not_status {srv : Server} {req : Request} {w w1 : World} {err : Error}
    (hres : resolveKey srv req w = (.error err, w1)) : err = .EOF ∨ err = .ErrUnexpectedEOF := by
  cases h : srv.getKey req.NodeUuid with
  | ok key => rw [resolveKey_of_ok w h] at hres; simp at hres
  | error e =>
    rw [resolveKey_of_error w h] at hres
    exact ReadFull_error_not_status hres

/-! ## When a handler answers `InvalidArgument` -/

theorem not_isInvalidArgument_ok (r : Response) : ¬ isInvalidArgument (.ok r) := by
  rintro ⟨msg, h⟩
  cases h

theorem not_isInvalidArgument_of_eof {err : Error} (h : err = .EOF ∨ err = .ErrUnexpectedEOF) :
    ¬ isInvalidArgument (.error err) := by
  rintro ⟨msg, hm⟩
  rcases h with h | h <;> subst h <;> cases hm

theorem not_isInvalidArgument_keySize (n : Nat) :
    ¬ isInvalidArgument (.error (.KeySizeError n)) := by
  rintro ⟨msg, h⟩
  cases h

theorem isInvalidArgument_status (msg : String) :
    isInvalidArgument (.error (.status .InvalidArgument msg)) :=
  ⟨msg, rfl⟩

/-- With a key AES accepts in hand, `Unseal` answers `InvalidArgument` exactly on
a length other than the one of line 99. -/
theorem Unseal_invalidArgument_of_key {G : AESGCM} {srv : Server} {req : Request}
    {w w1 : World} {key : Bytes}
    (hres : resolveKey srv req w = (.ok key, w1)) (hv : aes.validKeySize key.length) :
    isInvalidArgument (Unseal G srv req w).1 ↔
      req.Data.length ≠ aes.BlockSize + constants.PassphraseSize + gcmStandardNonceSize := by
  rw [Unseal_of_key hres hv]
  by_cases hl : req.Data.length = aes.BlockSize + constants.PassphraseSize + gcmStandardNonceSize
  · simp only [hl, ne_eq, not_true_eq_false, if_false, iff_false]
    cases G.openBytes key (req.Data.take gcmStandardNonceSize)
        (req.Data.drop gcmStandardNonceSize) with
    | some decrypted => exact not_isInvalidArgument_ok _
    | none =>
      simp only
      rcases hrf : ReadFull constants.PassphraseSize w1 with ⟨r, w2⟩
      cases r with
      | ok data => exact not_isInvalidArgument_ok _
      | error err => exact not_isInvalidArgument_of_eof (ReadFull_error_not_status hrf)
  · simp only [ne_eq, hl, not_false_eq_true, if_true, iff_true]
    exact isInvalidArgument_status _

/-- With a key AES accepts in hand and the nonce drawn, `Seal` answers
`InvalidArgument` exactly on a payload length other than `PassphraseSize`. -/
theorem Seal_invalidArgument_of_key {G : AESGCM} {srv : Server} {req : Request}
    {w w1 : World} {key : Bytes}
    (hres : resolveKey srv req w = (.ok key, w1)) (hv : aes.validKeySize key.length)
    (hn : gcmStandardNonceSize ≤ w1.rand.length) :
    isInvalidArgument (Seal G srv req w).1 ↔ req.Data.length ≠ constants.PassphraseSize := by
  rw [Seal_of_key hres hv, ReadFull_of_le hn]
  by_cases hl : req.Data.length = constants.PassphraseSize
  · simp only [hl, ne_eq, not_true_eq_false, if_false, iff_false]
    exact not_isInvalidArgument_ok _
  · simp only [ne_eq, hl, not_false_eq_true, if_true, iff_true]
    exact isInvalidArgument_status _

/-- The key the handlers work with when the key handler yields one AES accepts,
or fails while the random source can deliver the fallback key. -/
theorem resolveKey_of_usable {srv : Server} {req : Request} {w : World}
    (hkey : (∃ key, srv.getKey req.NodeUuid = .ok key ∧ aes.validKeySize key.length) ∨
      (∃ e, srv.getKey req.NodeUuid = .error e))
    (hrand : 32 ≤ w.rand.length) :
    ∃ key w1, resolveKey srv req w = (.ok key, w1) ∧ aes.validKeySize key.length ∧
      w.rand.length ≤ w1.rand.length + 32 := by
  rcases hkey with ⟨key, hk, hv⟩ | ⟨e, he⟩
  · exact ⟨key, _, resolveKey_of_ok w hk, hv, by simp⟩
  · refine ⟨w.rand.take 32,
      { rand := w.rand.drop 32, keyCalls := w.keyCalls ++ [req.NodeUuid] }, ?_, ?_, ?_⟩
    · rw [resolveKey_of_error w he]
      exact ReadFull_of_le (w := { w with keyCalls := w.keyCalls ++ [req.NodeUuid] }) hrand
    · right; right
      rw [List.length_take]
      exact Nat.min_eq_left hrand
    · simp only [List.length_drop]
      omega

/-! ## The claims -/

/-- C1. Round trip: when the key handler resolves node `n` to a key AES accepts,
the payload `p` has `PassphraseSize` bytes and `Seal` can draw its nonce, then
`Seal(n, p)` succeeds with an envelope `e` (the drawn nonce followed by the
sealed payload), and `Unseal(n, e)`, in whatever world it runs, succeeds and
returns exactly `p`. -/
theorem Seal_Unseal_roundtrip (G : AESGCM) (srv : Server) (n : String) (key p : Bytes)
    (w : World)
    (hkey : srv.getKey n = .ok key) (hvalid : aes.validKeySize key.length)
    (hp : p.length = constants.PassphraseSize)
    (hnonce : gcmStandardNonceSize ≤ w.rand.length) :
    ∃ e w1, Seal G srv { NodeUuid := n, Data := p } w = (.ok e, w1) ∧
      e.Data = w.rand.take gcmStandardNonceSize
        ++ G.sealBytes key (w.rand.take gcmStandardNonceSize) p ∧
      e.Data.length = aes.BlockSize + constants.PassphraseSize + gcmStandardNonceSize ∧
      ∀ w2, (Unseal G srv { NodeUuid := n, Data := e.Data } w2).1 = .ok { Data := p } := by
  obtain ⟨nonce, hdef⟩ : ∃ nonce, nonce = w.rand.take gcmStandardNonceSize := ⟨_, rfl⟩
  rw [← hdef]
  have hN : nonce.length = gcmStandardNonceSize := by
    rw [hdef, List.length_take]
    exact Nat.min_eq_left hnonce
  have hsl := G.seal_length key nonce p hvalid hN
  have hlen : (nonce ++ G.sealBytes key nonce p).length
      = aes.BlockSize + constants.PassphraseSize + gcmStandardNonceSize := by
    rw [List.length_append, hN, hsl, hp]
    simp [aes.BlockSize, gcmTagSize, constants.PassphraseSize, gcmStandardNonceSize]
  have hres : resolveKey srv { NodeUuid := n, Data := p } w
      = (.ok key, { w with keyCalls := w.keyCalls ++ [n] }) :=
    resolveKey_of_ok (r := { NodeUuid := n, Data := p }) w hkey
  refine ⟨{ Data := nonce ++ G.sealBytes key nonce p },
    { rand := w.rand.drop gcmStandardNonceSize, keyCalls := w.keyCalls ++ [n] }, ?_, rfl, hlen,
    ?_⟩
  · rw [Seal_of_key hres hvalid,
      ReadFull_of_le (w := { w with keyCalls := w.keyCalls ++ [n] }) hnonce, ← hdef]
    simp only [hp, ne_eq, not_true_eq_false, if_false]
  · intro w2
    have hres2 := resolveKey_of_ok
      (r := { NodeUuid := n, Data := nonce ++ G.sealBytes key nonce p }) w2 hkey
    rw [Unseal_of_key hres2 hvalid]
    simp only [hlen, ne_eq, not_true_eq_false, if_false]
    rw [← hN, List.take_left, List.drop_left, G.open_seal key _ p hvalid hN]

/-- Witness for C1: the server of the tests, node `"abcd"`, a 32-byte passphrase,
and the small AEAD. -/
theorem Seal_Unseal_roundtrip_witness :
    (demoServer.getKey "abcd" = .ok demoKey ∧ aes.validKeySize demoKey.length ∧
      demoPassphrase.length = constants.PassphraseSize ∧
      gcmStandardNonceSize ≤ demoWorld.rand.length) ∧
    ∃ e w1, Seal padGCM demoServer { NodeUuid := "abcd", Data := demoPassphrase } demoWorld
        = (.ok e, w1) ∧
      e.Data = demoWorld.rand.take gcmStandardNonceSize
        ++ padGCM.sealBytes demoKey (demoWorld.rand.take gcmStandardNonceSize) demoPassphrase ∧
      e.Data.length = aes.BlockSize + constants.PassphraseSize + gcmStandardNonceSize ∧
      ∀ w2, (Unseal padGCM demoServer { NodeUuid := "abcd", Data := e.Data } w2).1
        = .ok { Data := demoPassphrase } :=
  ⟨⟨by rfl, by decide, by decide, by decide⟩,
    Seal_Unseal_roundtrip padGCM demoServer "abcd" demoKey demoPassphrase demoWorld
      (by rfl) (by decide) (by decide) (by decide)⟩

/-- C2. Unseal length validation: when the key handler yields a key AES accepts
(in particular a 256-bit one), or fails and the fallback key is drawn, and the
random source can serve every read of the call, `Unseal` answers
`InvalidArgument` (an error, hence no response) if and only if the length of the
input differs from `nonceSize + PassphraseSize + tagSize`, which is 60; the
empty input is rejected. -/
theorem Unseal_invalidArgument_iff (G : AESGCM) (srv : Server) (req : Request) (w : World)
    (hkey : (∃ key, srv.getKey req.NodeUuid = .ok key ∧ aes.validKeySize key.length) ∨
      (∃ e, srv.getKey req.NodeUuid = .error e))
    (hrand : 32 + constants.PassphraseSize ≤ w.rand.length) :
    (isInvalidArgument (Unseal G srv req w).1 ↔
      req.Data.length ≠ gcmStandardNonceSize + constants.PassphraseSize + gcmTagSize) ∧
    gcmStandardNonceSize + constants.PassphraseSize + gcmTagSize = 60 ∧
    (req.Data = [] → isInvalidArgument (Unseal G srv req w).1) := by
  obtain ⟨key, w1, hres, hv, -⟩ := resolveKey_of_usable hkey (w := w) (by omega)
  have hiff := Unseal_invalidArgument_of_key (G := G) hres hv
  have hsame : aes.BlockSize + constants.PassphraseSize + gcmStandardNonceSize
      = gcmStandardNonceSize + constants.PassphraseSize + gcmTagSize := by
    simp [aes.BlockSize, gcmTagSize, gcmStandardNonceSize, constants.PassphraseSize]
  rw [hsame] at hiff
  refine ⟨hiff, by simp [gcmTagSize, gcmStandardNonceSize, constants.PassphraseSize], ?_⟩
  intro hempty
  rw [hiff, hempty]
  simp [gcmTagSize, gcmStandardNonceSize, constants.PassphraseSize]

/-- Witness for C2: the known node of the tests and the empty input. -/
theorem Unseal_invalidArgument_iff_witness :
    (32 + constants.PassphraseSize ≤ demoWorld.rand.length) ∧
    ((isInvalidArgument (Unseal padGCM demoServer { NodeUuid := "abcd", Data := [] } demoWorld).1 ↔
      ([] : Bytes).length ≠ gcmStandardNonceSize + constants.PassphraseSize + gcmTagSize) ∧
    gcmStandardNonceSize + constants.PassphraseSize + gcmTagSize = 60 ∧
    (([] : Bytes) = [] →
      isInvalidArgument (Unseal padGCM demoServer { NodeUuid := "abcd", Data := [] } demoWorld).1)) :=
  ⟨by decide,
    Unseal_invalidArgument_iff padGCM demoServer { NodeUuid := "abcd", Data := [] } demoWorld
      (Or.inl ⟨demoKey, by rfl, by decide⟩) (by decide)⟩

/-- C4. Seal length validation: when the key handler yields a key AES accepts
(in particular a 256-bit one), or fails and the fallback key is drawn, and the
random source can serve every read of the call, `Seal` answers
`InvalidArgument` (an error, hence no envelope) if and only if the payload is
not `PassphraseSize` bytes long; a 64-byte payload is rejected and a 32-byte
payload yields an envelope. -/
theorem Seal_invalidArgument_iff (G : AESGCM) (srv : Server) (req : Request) (w : World)
    (hkey : (∃ key, srv.getKey req.NodeUuid = .ok key ∧ aes.validKeySize key.length) ∨
      (∃ e, srv.getKey req.NodeUuid = .error e))
    (hrand : 32 + gcmStandardNonceSize ≤ w.rand.length) :
    (isInvalidArgument (Seal G srv req w).1 ↔ req.Data.length ≠ constants.PassphraseSize) ∧
    (req.Data.length = 64 → isInvalidArgument (Seal G srv req w).1) ∧
    (req.Data.length = 32 → ∃ resp, (Seal G srv req w).1 = .ok resp) := by
  obtain ⟨key, w1, hres, hv, hw1⟩ := resolveKey_of_usable hkey (w := w) (by omega)
  have hn : gcmStandardNonceSize ≤ w1.rand.length := by omega
  have hiff := Seal_invalidArgument_of_key (G := G) hres hv hn
  refine ⟨hiff, ?_, ?_⟩
  · intro h64
    rw [hiff, h64]
    simp [constants.PassphraseSize]
  · intro h32
    rw [Seal_of_key hres hv, ReadFull_of_le hn]
    have : req.Data.length = constants.PassphraseSize := by
      rw [h32]; rfl
    simp only [this, ne_eq, not_true_eq_false, if_false]
    exact ⟨_, rfl⟩

/-- Witness for C4: the known node of the tests and a 64-byte payload, as in
`TestInvalidInputs`. -/
theorem Seal_invalidArgument_iff_witness :
    (32 + gcmStandardNonceSize ≤ demoWorld.rand.length) ∧
    isInvalidArgument
      (Seal padGCM demoServer { NodeUuid := "abcd", Data := List.replicate 64 0 } demoWorld).1 :=
  ⟨by decide,
    (Seal_invalidArgument_iff padGCM demoServer
      { NodeUuid := "abcd", Data := List.replicate 64 0 } demoWorld
      (Or.inl ⟨demoKey, by rfl, by decide⟩) (by decide)).2.1 (by decide)⟩

/-- The outcomes of `Unseal`, one per return statement of the source. -/
theorem Unseal_cases (G : AESGCM) (srv : Server) (req : Request) (w : World) :
    (∃ err, (Unseal G srv req w).1 = .error err ∧ (err = .EOF ∨ err = .ErrUnexpectedEOF)) ∨
    (∃ n, (Unseal G srv req w).1 = .error (.KeySizeError n)) ∨
    ((Unseal G srv req w).1 = .error (.status .InvalidArgument "incorrect data length")) ∨
    (∃ data, (Unseal G srv req w).1 = .ok { Data := data } ∧
      data.length = constants.PassphraseSize) := by
  rcases hres : resolveKey srv req w with ⟨r, w1⟩
  cases r with
  | error err =>
    rw [(handlers_of_no_key (G := G) hres).2]
    exact Or.inl ⟨err, rfl, resolveKey_error_not_status hres⟩
  | ok key =>
    by_cases hv : aes.validKeySize key.length
    · rw [Unseal_of_key hres hv]
      by_cases hl : req.Data.length
          = aes.BlockSize + constants.PassphraseSize + gcmStandardNonceSize
      · simp only [hl, ne_eq, not_true_eq_false, if_false]
        cases hopen : G.openBytes key (req.Data.take gcmStandardNonceSize)
            (req.Data.drop gcmStandardNonceSize) with
        | some decrypted =>
          refine Or.inr (Or.inr (Or.inr ⟨decrypted, rfl, ?_⟩))
          have hN : (req.Data.take gcmStandardNonceSize).length = gcmStandardNonceSize := by
            rw [List.length_take, hl]
            simp [aes.BlockSize, constants.PassphraseSize, gcmStandardNonceSize]
          have := G.open_length key _ _ decrypted hv hN hopen
          rw [List.length_drop, hl] at this
          simp only [aes.BlockSize, constants.PassphraseSize, gcmStandardNonceSize,
            gcmTagSize] at this ⊢
          omega
        | none =>
          simp only
          rcases hrf : ReadFull constants.PassphraseSize w1 with ⟨r, w2⟩
          cases r with
          | error err => exact Or.inl ⟨err, rfl, ReadFull_error_not_status hrf⟩
          | ok data =>
            refine Or.inr (Or.inr (Or.inr ⟨data, rfl, ?_⟩))
            obtain ⟨hn, hd, -⟩ := ReadFull_ok_inv hrf
            rw [hd, List.length_take]
            exact Nat.min_eq_left hn
      · simp only [ne_eq, hl, not_false_eq_true, if_true]
        exact Or.inr (Or.inr (Or.inl trivial))
    · rw [(handlers_of_bad_key (G := G) hres hv).2]
      exact Or.inr (Or.inl ⟨_, rfl⟩)

/-- C7. Every successful `Unseal` returns exactly `PassphraseSize` bytes,
whatever the key, the input and the state of the random source: on the
authentication-failure branch the random substitute, on the success branch
the plaintext of `Open`. -/
theorem Unseal_ok_length (G : AESGCM) (srv : Server) (req : Request) (w : World)
    (resp : Response) (h : (Unseal G srv req w).1 = .ok resp) :
    resp.Data.length = constants.PassphraseSize := by
  rcases Unseal_cases G srv req w with ⟨err, he, -⟩ | ⟨n, hn⟩ | hs | ⟨data, hd, hlen⟩
  · rw [he] at h; cases h
  · rw [hn] at h; cases h
  · rw [hs] at h; cases h
  · rw [hd] at h
    cases h
    exact hlen

/-- Witness for C7: an input of the accepted length that does not authenticate;
the 32 bytes returned are the random substitute. -/
theorem Unseal_ok_length_witness :
    (Unseal padGCM demoServer { NodeUuid := "abcd", Data := List.replicate 60 0 } demoWorld).1
      = .ok { Data := demoWorld.rand.take 32 } ∧
    (demoWorld.rand.take 32).length = constants.PassphraseSize :=
  ⟨by rfl,
    Unseal_ok_length padGCM demoServer { NodeUuid := "abcd", Data := List.replicate 60 0 }
      demoWorld { Data := demoWorld.rand.take 32 } (by rfl)⟩

/-- C10. A malformed resolved key takes precedence over the length check: when
the key handler succeeds with a key whose length is not 16, 24 or 32, `Seal` and
`Unseal` both return the `KeySizeError` of `aes.NewCipher`, which is not an
`InvalidArgument`, for every request data; the key handler has been called
once and nothing has been read from the random source, so no fallback key was
drawn. -/
theorem malformed_key_precedes_length_check (G : AESGCM) (srv : Server) (req : Request)
    (w : World) (key : Bytes)
    (hkey : srv.getKey req.NodeUuid = .ok key) (hbad : ¬ aes.validKeySize key.length) :
    Seal G srv req w
      = (.error (.KeySizeError key.length),
          { rand := w.rand, keyCalls := w.keyCalls ++ [req.NodeUuid] }) ∧
    Unseal G srv req w
      = (.error (.KeySizeError key.length),
          { rand := w.rand, keyCalls := w.keyCalls ++ [req.NodeUuid] }) ∧
    ¬ isInvalidArgument (Seal G srv req w).1 ∧
    ¬ isInvalidArgument (Unseal G srv req w).1 := by
  have hres := resolveKey_of_ok w hkey
  obtain ⟨hs, hu⟩ := handlers_of_bad_key (G := G) hres hbad
  refine ⟨hs, hu, ?_, ?_⟩
  · rw [hs]
    exact not_isInvalidArgument_keySize _
  · rw [hu]
    exact not_isInvalidArgument_keySize _

/-- Witness for C10: a handler serving a 5-byte key, and a request whose data
has the length `Seal` asks for. -/
theorem malformed_key_precedes_length_check_witness :
    (shortKeyServer.getKey "abcd" = .ok [1, 2, 3, 4, 5] ∧
      ¬ aes.validKeySize ([1, 2, 3, 4, 5] : Bytes).length) ∧
    (Seal padGCM shortKeyServer { NodeUuid := "abcd", Data := demoPassphrase } demoWorld
      = (.error (.KeySizeError 5), { rand := demoWorld.rand, keyCalls := ["abcd"] }) ∧
    Unseal padGCM shortKeyServer { NodeUuid := "abcd", Data := demoPassphrase } demoWorld
      = (.error (.KeySizeError 5), { rand := demoWorld.rand, keyCalls := ["abcd"] }) ∧
    ¬ isInvalidArgument
      (Seal padGCM shortKeyServer { NodeUuid := "abcd", Data := demoPassphrase } demoWorld).1 ∧
    ¬ isInvalidArgument
      (Unseal padGCM shortKeyServer { NodeUuid := "abcd", Data := demoPassphrase } demoWorld).1) :=
  ⟨⟨by rfl, by decide⟩,
    malformed_key_precedes_length_check padGCM shortKeyServer
      { NodeUuid := "abcd", Data := demoPassphrase } demoWorld [1, 2, 3, 4, 5]
      (by rfl) (by decide)⟩

/-- C5. Authentication-failure masking: for every key the cipher is built from
and every input of the length `Unseal` accepts on which `Open` of (the first
`nonceSize` bytes, the remainder) fails under that key, `Unseal` returns no
error and its data is exactly the next `PassphraseSize` bytes of the random
source, whatever the envelope; and in no world at all does the error of `Open`
come back from `Unseal`. -/
theorem Unseal_masks_authentication_failure (G : AESGCM) (srv : Server) (req : Request)
    (w w1 : World) (key : Bytes)
    (hres : resolveKey srv req w = (.ok key, w1))
    (hvalid : aes.validKeySize key.length)
    (hlen : req.Data.length = aes.BlockSize + constants.PassphraseSize + gcmStandardNonceSize)
    (hopen : G.openBytes key (req.Data.take gcmStandardNonceSize)
      (req.Data.drop gcmStandardNonceSize) = none)
    (hrand : constants.PassphraseSize ≤ w1.rand.length) :
    Unseal G srv req w
      = (.ok { Data := w1.rand.take constants.PassphraseSize },
          { w1 with rand := w1.rand.drop constants.PassphraseSize }) ∧
    (w1.rand.take constants.PassphraseSize).length = constants.PassphraseSize ∧
    ∀ w0, (Unseal G srv req w0).1 ≠ .error .errOpen := by
  refine ⟨?_, ?_, ?_⟩
  · rw [Unseal_of_key hres hvalid]
    simp only [hlen, ne_eq, not_true_eq_false, if_false, hopen, ReadFull_of_le hrand]
  · rw [List.length_take]
    exact Nat.min_eq_left hrand
  · intro w0 h
    rcases Unseal_cases G srv req w0 with ⟨err, he, hor⟩ | ⟨n, hn⟩ | hs | ⟨data, hd, -⟩
    · rw [he] at h
      cases h
      rcases hor with hor | hor <;> cases hor
    · rw [hn] at h; cases h
    · rw [hs] at h; cases h
    · rw [hd] at h; cases h

/-- Witness for C5: the known node of the tests and 60 zero bytes, which do not
authenticate under its key. -/
theorem Unseal_masks_authentication_failure_witness :
    Unseal padGCM demoServer { NodeUuid := "abcd", Data := List.replicate 60 0 } demoWorld
      = (.ok { Data := demoWorld.rand.take constants.PassphraseSize },
          { rand := demoWorld.rand.drop constants.PassphraseSize, keyCalls := ["abcd"] }) ∧
    (demoWorld.rand.take constants.PassphraseSize).length = constants.PassphraseSize ∧
    ∀ w0, (Unseal padGCM demoServer { NodeUuid := "abcd", Data := List.replicate 60 0 } w0).1
      ≠ .error .errOpen :=
  Unseal_masks_authentication_failure padGCM demoServer
    { NodeUuid := "abcd", Data := List.replicate 60 0 } demoWorld
    { rand := demoWorld.rand, keyCalls := ["abcd"] } demoKey
    (by rfl) (by decide) (by decide) (by decide) (by decide)

/-- C6. Resolver failure is never propagated: when the key handler returns an
error for the node and the random source can serve every read, `Seal` with a
`PassphraseSize`-byte payload succeeds, with an envelope sealed under the 32
bytes drawn as the key and the 12 bytes drawn next as the nonce, and `Unseal`
with an input of the accepted length succeeds; neither result is the key
handler's error. -/
theorem resolver_failure_not_propagated (G : AESGCM) (srv : Server) (n : String) (e : Error)
    (p data : Bytes) (w : World)
    (hfail : srv.getKey n = .error e)
    (hp : p.length = constants.PassphraseSize)
    (hd : data.length = gcmStandardNonceSize + constants.PassphraseSize + gcmTagSize)
    (hrand : 32 + constants.PassphraseSize ≤ w.rand.length) :
    (Seal G srv { NodeUuid := n, Data := p } w).1
      = .ok { Data := (w.rand.drop 32).take gcmStandardNonceSize
          ++ G.sealBytes (w.rand.take 32) ((w.rand.drop 32).take gcmStandardNonceSize) p } ∧
    (w.rand.take 32).length = 32 ∧
    (∃ resp, (Unseal G srv { NodeUuid := n, Data := data } w).1 = .ok resp) ∧
    (Seal G srv { NodeUuid := n, Data := p } w).1 ≠ .error e ∧
    (Unseal G srv { NodeUuid := n, Data := data } w).1 ≠ .error e := by
  have h32 : 32 ≤ w.rand.length := by omega
  have hklen : (w.rand.take 32).length = 32 := by
    rw [List.length_take]
    exact Nat.min_eq_left h32
  have hv : aes.validKeySize (w.rand.take 32).length := by
    right; right; exact hklen
  have hresS : resolveKey srv { NodeUuid := n, Data := p } w
      = (.ok (w.rand.take 32), { rand := w.rand.drop 32, keyCalls := w.keyCalls ++ [n] }) := by
    rw [resolveKey_of_error (r := { NodeUuid := n, Data := p }) w hfail]
    exact ReadFull_of_le (w := { w with keyCalls := w.keyCalls ++ [n] }) h32
  have hresU : resolveKey srv { NodeUuid := n, Data := data } w
      = (.ok (w.rand.take 32), { rand := w.rand.drop 32, keyCalls := w.keyCalls ++ [n] }) := by
    rw [resolveKey_of_error (r := { NodeUuid := n, Data := data }) w hfail]
    exact ReadFull_of_le (w := { w with keyCalls := w.keyCalls ++ [n] }) h32
  have hdrop : (w.rand.drop 32).length = w.rand.length - 32 := List.length_drop _ _
  have hnonce : gcmStandardNonceSize ≤ (w.rand.drop 32).length := by
    rw [hdrop]
    simp only [gcmStandardNonceSize, constants.PassphraseSize] at hrand ⊢
    omega
  have hsub : constants.PassphraseSize ≤ (w.rand.drop 32).length := by
    rw [hdrop]
    omega
  have hS : (Seal G srv { NodeUuid := n, Data := p } w).1
      = .ok { Data := (w.rand.drop 32).take gcmStandardNonceSize
          ++ G.sealBytes (w.rand.take 32) ((w.rand.drop 32).take gcmStandardNonceSize) p } := by
    rw [Seal_of_key hresS hv,
      ReadFull_of_le (w := { rand := w.rand.drop 32, keyCalls := w.keyCalls ++ [n] }) hnonce]
    simp only [hp, ne_eq, not_true_eq_false, if_false]
  have hU : ∃ resp, (Unseal G srv { NodeUuid := n, Data := data } w).1 = .ok resp := by
    rw [Unseal_of_key hresU hv]
    have hl : data.length
        = aes.BlockSize + constants.PassphraseSize + gcmStandardNonceSize := by
      rw [hd]
      simp [aes.BlockSize, gcmTagSize, gcmStandardNonceSize, constants.PassphraseSize]
    simp only [hl, ne_eq, not_true_eq_false, if_false]
    cases G.openBytes (w.rand.take 32) (data.take gcmStandardNonceSize)
        (data.drop gcmStandardNonceSize) with
    | some decrypted => exact ⟨_, rfl⟩
    | none =>
      simp only
      rw [ReadFull_of_le
        (w := { rand := w.rand.drop 32, keyCalls := w.keyCalls ++ [n] }) hsub]
      exact ⟨_, rfl⟩
  refine ⟨hS, hklen, hU, ?_, ?_⟩
  · rw [hS]
    intro h
    cases h
  · obtain ⟨resp, hresp⟩ := hU
    rw [hresp]
    intro h
    cases h

/-- Witness for C6: the unknown node `"abce"` of `TestSealUnseal`. -/
theorem resolver_failure_not_propagated_witness :
    (demoServer.getKey "abce" = .error (.errorf "unknown node") ∧
      32 + constants.PassphraseSize ≤ demoWorld.rand.length) ∧
    ((Seal padGCM demoServer { NodeUuid := "abce", Data := demoPassphrase } demoWorld).1
      = .ok { Data := (demoWorld.rand.drop 32).take gcmStandardNonceSize
          ++ padGCM.sealBytes (demoWorld.rand.take 32)
                ((demoWorld.rand.drop 32).take gcmStandardNonceSize) demoPassphrase } ∧
    (demoWorld.rand.take 32).length = 32 ∧
    (∃ resp, (Unseal padGCM demoServer
      { NodeUuid := "abce", Data := List.replicate 60 0 } demoWorld).1 = .ok resp) ∧
    (Seal padGCM demoServer { NodeUuid := "abce", Data := demoPassphrase } demoWorld).1
      ≠ .error (.errorf "unknown node") ∧
    (Unseal padGCM demoServer { NodeUuid := "abce", Data := List.replicate 60 0 } demoWorld).1
      ≠ .error (.errorf "unknown node")) :=
  ⟨⟨by rfl, by decide⟩,
    resolver_failure_not_propagated padGCM demoServer "abce" (.errorf "unknown node")
      demoPassphrase (List.replicate 60 0) demoWorld (by rfl) (by decide) (by decide)
      (by decide)⟩

/-- C8. Envelope layout: for every key the cipher is built from, every
`PassphraseSize`-byte payload and every nonce `N` the random source delivers,
`Seal` returns exactly `N` followed by the sealed payload under that key and
nonce; the envelope has `nonceSize + PassphraseSize + tagSize` bytes and its
first `nonceSize` bytes are `N`; and a `Seal` of the same request that draws a
different nonce returns a different envelope. -/
theorem Seal_envelope_layout (G : AESGCM) (srv : Server) (req : Request) (w w1 : World)
    (key : Bytes)
    (hres : resolveKey srv req w = (.ok key, w1))
    (hvalid : aes.validKeySize key.length)
    (hp : req.Data.length = constants.PassphraseSize)
    (hnonce : gcmStandardNonceSize ≤ w1.rand.length) :
    Seal G srv req w
      = (.ok { Data := w1.rand.take gcmStandardNonceSize
            ++ G.sealBytes key (w1.rand.take gcmStandardNonceSize) req.Data },
          { w1 with rand := w1.rand.drop gcmStandardNonceSize }) ∧
    (w1.rand.take gcmStandardNonceSize
        ++ G.sealBytes key (w1.rand.take gcmStandardNonceSize) req.Data).length
      = gcmStandardNonceSize + constants.PassphraseSize + gcmTagSize ∧
    (w1.rand.take gcmStandardNonceSize
        ++ G.sealBytes key (w1.rand.take gcmStandardNonceSize) req.Data).take
        gcmStandardNonceSize
      = w1.rand.take gcmStandardNonceSize ∧
    ∀ (v v1 : World) (key2 : Bytes), resolveKey srv req v = (.ok key2, v1) →
      aes.validKeySize key2.length → gcmStandardNonceSize ≤ v1.rand.length →
      v1.rand.take gcmStandardNonceSize ≠ w1.rand.take gcmStandardNonceSize →
      (Seal G srv req v).1 ≠ (Seal G srv req w).1 := by
  have hstep : ∀ (v v1 : World) (key2 : Bytes), resolveKey srv req v = (.ok key2, v1) →
      aes.validKeySize key2.length → gcmStandardNonceSize ≤ v1.rand.length →
      Seal G srv req v
        = (.ok { Data := v1.rand.take gcmStandardNonceSize
              ++ G.sealBytes key2 (v1.rand.take gcmStandardNonceSize) req.Data },
            { v1 with rand := v1.rand.drop gcmStandardNonceSize }) := by
    intro v v1 key2 h1 h2 h3
    rw [Seal_of_key h1 h2, ReadFull_of_le h3]
    simp only [hp, ne_eq, not_true_eq_false, if_false]
  have hlenN : ∀ v1 : World, gcmStandardNonceSize ≤ v1.rand.length →
      (v1.rand.take gcmStandardNonceSize).length = gcmStandardNonceSize := by
    intro v1 h
    rw [List.length_take]
    exact Nat.min_eq_left h
  have hN := hlenN w1 hnonce
  refine ⟨hstep w w1 key hres hvalid hnonce, ?_, ?_, ?_⟩
  · rw [List.length_append, hN, G.seal_length key _ req.Data hvalid hN, hp]
    omega
  · exact List.take_left' hN
  · intro v v1 key2 h1 h2 h3 hne heq
    rw [hstep v v1 key2 h1 h2 h3, hstep w w1 key hres hvalid hnonce] at heq
    simp only [Except.ok.injEq, Response.mk.injEq] at heq
    apply hne
    have := congrArg (List.take gcmStandardNonceSize) heq
    rw [List.take_left' (hlenN v1 h3), List.take_left' hN] at this
    exact this

/-- Witness for C8: the known node of the tests in a world of 80 random bytes,
against a second world whose random source starts with other bytes. -/
theorem Seal_envelope_layout_witness :
    (Seal padGCM demoServer { NodeUuid := "abcd", Data := demoPassphrase } demoWorld).1
      = .ok { Data := demoWorld.rand.take gcmStandardNonceSize
          ++ padGCM.sealBytes demoKey (demoWorld.rand.take gcmStandardNonceSize)
                demoPassphrase } ∧
    (Seal padGCM demoServer { NodeUuid := "abcd", Data := demoPassphrase }
        { rand := List.replicate 12 9, keyCalls := [] }).1
      ≠ (Seal padGCM demoServer { NodeUuid := "abcd", Data := demoPassphrase } demoWorld).1 :=
  have h := Seal_envelope_layout padGCM demoServer
    { NodeUuid := "abcd", Data := demoPassphrase } demoWorld
    { rand := demoWorld.rand, keyCalls := ["abcd"] } demoKey
    (by rfl) (by decide) (by decide) (by decide)
  ⟨congrArg Prod.fst h.1,
    h.2.2.2 { rand := List.replicate 12 9, keyCalls := [] }
      { rand := List.replicate 12 9, keyCalls := ["abcd"] } demoKey
      (by rfl) (by decide) (by decide) (by decide)⟩

/-- The world in which the handlers go on once `resolveKey` has produced a key. -/
theorem resolveKey_ok_world {srv : Server} {req : Request} {w w1 : World} {key : Bytes}
    (hres : resolveKey srv req w = (.ok key, w1)) :
    w1 = { rand := w.rand.drop (fallbackKeyBytes srv req.NodeUuid),
           keyCalls := w.keyCalls ++ [req.NodeUuid] } := by
  unfold fallbackKeyBytes
  cases h : srv.getKey req.NodeUuid with
  | ok k =>
    rw [resolveKey_of_ok w h] at hres
    simp only [Prod.mk.injEq] at hres
    rw [← hres.2]
    simp
  | error e =>
    rw [resolveKey_of_error w h] at hres
    obtain ⟨-, -, hw⟩ := ReadFull_ok_inv hres
    rw [hw]

/-- C3, as the code has it: the length `Unseal` requires on line 99,
`aes.BlockSize + PassphraseSize + nonceSize`, equals
`nonceSize + PassphraseSize + tagSize`, and every envelope `Seal` returns has
exactly that length: there is no extra block. -/
theorem Unseal_required_length_eq_sealed_length (G : AESGCM) (srv : Server) (req : Request)
    (w : World) (resp : Response) (h : (Seal G srv req w).1 = .ok resp) :
    aes.BlockSize + constants.PassphraseSize + gcmStandardNonceSize
      = gcmStandardNonceSize + constants.PassphraseSize + gcmTagSize ∧
    resp.Data.length = aes.BlockSize + constants.PassphraseSize + gcmStandardNonceSize ∧
    ∀ v, ¬ isInvalidArgument (Unseal G srv { NodeUuid := req.NodeUuid, Data := resp.Data } v).1 := by
  have hsame : aes.BlockSize + constants.PassphraseSize + gcmStandardNonceSize
      = gcmStandardNonceSize + constants.PassphraseSize + gcmTagSize := by
    simp [aes.BlockSize, gcmTagSize, gcmStandardNonceSize, constants.PassphraseSize]
  have hlen : resp.Data.length
      = aes.BlockSize + constants.PassphraseSize + gcmStandardNonceSize := by
    rcases hres : resolveKey srv req w with ⟨r, w1⟩
    cases r with
    | error err =>
      rw [(handlers_of_no_key (G := G) hres).1] at h
      cases h
    | ok key =>
      by_cases hv : aes.validKeySize key.length
      · rw [Seal_of_key hres hv] at h
        rcases hrf : ReadFull gcmStandardNonceSize w1 with ⟨r, w2⟩
        rw [hrf] at h
        cases r with
        | error err => cases h
        | ok nonce =>
          by_cases hl : req.Data.length = constants.PassphraseSize
          · simp only [hl, ne_eq, not_true_eq_false, if_false, Except.ok.injEq] at h
            obtain ⟨hn, hd, -⟩ := ReadFull_ok_inv hrf
            have hN : nonce.length = gcmStandardNonceSize := by
              rw [hd, List.length_take]
              exact Nat.min_eq_left hn
            rw [← h]
            simp only [List.length_append, hN, G.seal_length key nonce req.Data hv hN, hl]
            simp [aes.BlockSize, gcmTagSize, gcmStandardNonceSize, constants.PassphraseSize]
          · simp only [ne_eq, hl, not_false_eq_true, if_true] at h
            cases h
      · rw [(handlers_of_bad_key (G := G) hres hv).1] at h
        cases h
  refine ⟨hsame, hlen, ?_⟩
  intro v hinv
  rcases Unseal_cases G srv { NodeUuid := req.NodeUuid, Data := resp.Data } v with
    ⟨err, he, hor⟩ | ⟨n, hn⟩ | hs | ⟨data, hd, -⟩
  · rw [he] at hinv
    exact not_isInvalidArgument_of_eof hor hinv
  · rw [hn] at hinv
    exact not_isInvalidArgument_keySize _ hinv
  · rcases hres : resolveKey srv { NodeUuid := req.NodeUuid, Data := resp.Data } v with ⟨r, v1⟩
    cases r with
    | error err =>
      rw [(handlers_of_no_key (G := G) hres).2] at hs
      rcases resolveKey_error_not_status hres with h1 | h1 <;> rw [h1] at hs <;> cases hs
    | ok key =>
      by_cases hv : aes.validKeySize key.length
      · exact (Unseal_invalidArgument_of_key (G := G) hres hv).1 hinv hlen
      · rw [(handlers_of_bad_key (G := G) hres hv).2] at hs
        cases hs
  · rw [hd] at hinv
    exact not_isInvalidArgument_ok _ hinv

/-- Witness for C3: the envelope `Seal` returns for the known node of the tests. -/
theorem Unseal_required_length_eq_sealed_length_witness :
    aes.BlockSize + constants.PassphraseSize + gcmStandardNonceSize
      = gcmStandardNonceSize + constants.PassphraseSize + gcmTagSize ∧
    (demoWorld.rand.take 12 ++ padSeal demoKey (demoWorld.rand.take 12) demoPassphrase).length
      = aes.BlockSize + constants.PassphraseSize + gcmStandardNonceSize ∧
    ∀ v, ¬ isInvalidArgument (Unseal padGCM demoServer
      { NodeUuid := "abcd",
        Data := demoWorld.rand.take 12
          ++ padSeal demoKey (demoWorld.rand.take 12) demoPassphrase } v).1 :=
  Unseal_required_length_eq_sealed_length padGCM demoServer
    { NodeUuid := "abcd", Data := demoPassphrase } demoWorld
    { Data := demoWorld.rand.take 12
        ++ padSeal demoKey (demoWorld.rand.take 12) demoPassphrase } (by rfl)

/-- Counterexample to C3 as stated: the envelope `Seal` returns for the known
node of the tests has `nonceSize + PassphraseSize + tagSize` = 60 bytes and
`Unseal` does not reject it for its length, whereas an input one AES block
longer, 76 bytes, is rejected with `InvalidArgument`; the length of line 99 is
not the sealed length plus a block. -/
theorem Unseal_length_check_no_overcount :
    (∃ e w1, Seal padGCM demoServer { NodeUuid := "abcd", Data := demoPassphrase } demoWorld
        = (.ok e, w1) ∧
      e.Data.length = gcmStandardNonceSize + constants.PassphraseSize + gcmTagSize ∧
      (Unseal padGCM demoServer { NodeUuid := "abcd", Data := e.Data } w1).1
        = .ok { Data := demoPassphrase }) ∧
    isInvalidArgument (Unseal padGCM demoServer
      { NodeUuid := "abcd",
        Data := List.replicate
          (gcmStandardNonceSize + constants.PassphraseSize + gcmTagSize + aes.BlockSize) 0 }
      demoWorld).1 ∧
    ¬ (aes.BlockSize + constants.PassphraseSize + gcmStandardNonceSize
      = gcmStandardNonceSize + constants.PassphraseSize + gcmTagSize + aes.BlockSize) :=
  ⟨⟨_, _, rfl, by decide, by rfl⟩, ⟨_, by rfl⟩, by decide⟩

/-- C9, as the code has it: whenever `Seal` or `Unseal` rejects a request with
`InvalidArgument`, the key handler has been called exactly once, with the
node identifier of the request, and the random source has lost the 32 bytes
of the fallback key if the key handler failed, followed, in `Seal`, by the 12
bytes of the nonce; the length is checked after these steps. -/
theorem length_rejection_effects (G : AESGCM) (srv : Server) (req : Request) (w : World) :
    (isInvalidArgument (Seal G srv req w).1 →
      req.Data.length ≠ constants.PassphraseSize ∧
      (Seal G srv req w).2.keyCalls = w.keyCalls ++ [req.NodeUuid] ∧
      (Seal G srv req w).2.rand
        = w.rand.drop (fallbackKeyBytes srv req.NodeUuid + gcmStandardNonceSize) ∧
      fallbackKeyBytes srv req.NodeUuid + gcmStandardNonceSize ≤ w.rand.length) ∧
    (isInvalidArgument (Unseal G srv req w).1 →
      req.Data.length ≠ aes.BlockSize + constants.PassphraseSize + gcmStandardNonceSize ∧
      (Unseal G srv req w).2.keyCalls = w.keyCalls ++ [req.NodeUuid] ∧
      (Unseal G srv req w).2.rand = w.rand.drop (fallbackKeyBytes srv req.NodeUuid) ∧
      fallbackKeyBytes srv req.NodeUuid ≤ w.rand.length) := by
  have hfb : fallbackKeyBytes srv req.NodeUuid ≤ w.rand.length ∨
      ∃ err w1, resolveKey srv req w = (.error err, w1) := by
    unfold fallbackKeyBytes
    cases h : srv.getKey req.NodeUuid with
    | ok k => exact Or.inl (Nat.zero_le _)
    | error e =>
      by_cases h32 : 32 ≤ w.rand.length
      · exact Or.inl h32
      · right
        rw [resolveKey_of_error w h]
        rcases hrf : ReadFull 32 { w with keyCalls := w.keyCalls ++ [req.NodeUuid] } with ⟨r, w1⟩
        cases r with
        | error err => exact ⟨err, w1, rfl⟩
        | ok key => exact absurd (ReadFull_ok_inv hrf).1 h32
  rcases hres : resolveKey srv req w with ⟨r, w1⟩
  cases r with
  | error err =>
    obtain ⟨hs, hu⟩ := handlers_of_no_key (G := G) hres
    have hno := not_isInvalidArgument_of_eof (resolveKey_error_not_status hres)
    rw [hs, hu]
    exact ⟨fun h => absurd h hno, fun h => absurd h hno⟩
  | ok key =>
    have hbytes : fallbackKeyBytes srv req.NodeUuid ≤ w.rand.length := by
      rcases hfb with h | ⟨err, w2, h⟩
      · exact h
      · rw [hres] at h
        simp at h
    have hw1 := resolveKey_ok_world hres
    by_cases hv : aes.validKeySize key.length
    · constructor
      · intro hinv
        rw [Seal_of_key hres hv] at hinv ⊢
        rcases hrf : ReadFull gcmStandardNonceSize w1 with ⟨r, w2⟩
        rw [hrf] at hinv
        cases r with
        | error err =>
          exact absurd hinv (not_isInvalidArgument_of_eof (ReadFull_error_not_status hrf))
        | ok nonce =>
          obtain ⟨hn, -, hw2⟩ := ReadFull_ok_inv hrf
          by_cases hl : req.Data.length = constants.PassphraseSize
          · simp only [hl, ne_eq, not_true_eq_false, if_false] at hinv
            exact absurd hinv (not_isInvalidArgument_ok _)
          · simp only [ne_eq, hl, not_false_eq_true, if_true]
            rw [hw2, hw1]
            simp only [List.drop_drop, true_and]
            rw [hw1] at hn
            simp only [List.length_drop] at hn
            omega
      · intro hinv
        have hl := (Unseal_invalidArgument_of_key (G := G) hres hv).1 hinv
        rw [Unseal_of_key hres hv]
        simp only [ne_eq, hl, not_false_eq_true, if_true]
        rw [hw1]
        exact ⟨trivial, rfl, rfl, hbytes⟩
    · obtain ⟨hs, hu⟩ := handlers_of_bad_key (G := G) hres hv
      rw [hs, hu]
      exact ⟨fun h => absurd h (not_isInvalidArgument_keySize _),
        fun h => absurd h (not_isInvalidArgument_keySize _)⟩

/-- Counterexample to C9 as stated: `Seal` rejects a 64-byte payload for the
known node of the tests with `InvalidArgument` after the key handler has been
called and 12 nonce bytes have been read; `Unseal` rejects the empty input for
the unknown node after the key handler has been called and the 32 bytes of the
fallback key have been read. -/
theorem length_rejection_side_effects :
    (isInvalidArgument
        (Seal padGCM demoServer
          { NodeUuid := "abcd", Data := List.replicate 64 0 } demoWorld).1 ∧
      (Seal padGCM demoServer
          { NodeUuid := "abcd", Data := List.replicate 64 0 } demoWorld).2.keyCalls
        = ["abcd"] ∧
      demoWorld.keyCalls = [] ∧
      (Seal padGCM demoServer
          { NodeUuid := "abcd", Data := List.replicate 64 0 } demoWorld).2.rand.length + 12
        = demoWorld.rand.length) ∧
    (isInvalidArgument
        (Unseal padGCM demoServer { NodeUuid := "abce", Data := [] } demoWorld).1 ∧
      (Unseal padGCM demoServer { NodeUuid := "abce", Data := [] } demoWorld).2.keyCalls
        = ["abce"] ∧
      (Unseal padGCM demoServer { NodeUuid := "abce", Data := [] } demoWorld).2.rand.length + 32
        = demoWorld.rand.length) ∧
    ¬ (∀ (G : AESGCM) (srv : Server) (req : Request) (w : World),
        (isInvalidArgument (Seal G srv req w).1 → (Seal G srv req w).2 = w) ∧
        (isInvalidArgument (Unseal G srv req w).1 → (Unseal G srv req w).2 = w)) := by
  refine ⟨⟨⟨_, by rfl⟩, by decide, by decide, by decide⟩,
    ⟨⟨_, by rfl⟩, by decide, by decide⟩, ?_⟩
  intro hall
  have h := (hall padGCM demoServer
    { NodeUuid := "abcd", Data := List.replicate 64 0 } demoWorld).1 ⟨_, by rfl⟩
  have hk := congrArg World.keyCalls h
  revert hk
  decide

/-- Witness for C9 as the code has it: the 64-byte payload of `TestInvalidInputs`. -/
theorem length_rejection_effects_witness :
    isInvalidArgument
      (Seal padGCM demoServer { NodeUuid := "abcd", Data := List.replicate 64 0 } demoWorld).1 ∧
    (Seal padGCM demoServer
        { NodeUuid := "abcd", Data := List.replicate 64 0 } demoWorld).2.keyCalls
      = demoWorld.keyCalls ++ ["abcd"] ∧
    (Seal padGCM demoServer { NodeUuid := "abcd", Data := List.replicate 64 0 } demoWorld).2.rand
      = demoWorld.rand.drop (fallbackKeyBytes demoServer "abcd" + gcmStandardNonceSize) :=
  have h := (length_rejection_effects padGCM demoServer
    { NodeUuid := "abcd", Data := List.replicate 64 0 } demoWorld).1 ⟨_, by rfl⟩
  ⟨⟨_, by rfl⟩, h.2.1, h.2.2.1⟩

end KMS
